import Mathlib

/-!
Verification development for `faker-script.py`, a synthetic multi-tier
supply-chain dataset generator (suppliers, materials, BOM edges, approved
supplier lists, purchase orders).

The script is a straight-line pipeline driven by three pseudo-random
generators (Faker, numpy, `random`), all seeded once from a single integer.
We embed the draw sequence as an infinite tape of naturals with a read
position; each library sampler is modelled as a function that consumes tape
values and produces a value in the sampler's support.

Real-valued quantities are represented exactly in fixed-point integer form:
probability weights in thousandths (all probability constants of the script
are exact multiples of 1/1000), currency in cents, BOM quantities in
thousandths of a unit.  Fractional draws are modelled at the same
resolution, which preserves the support bounds of every library
distribution.  Samplers that can raise in Python (`np.random.choice` with an
invalid `p`, `random.choices` with a non-positive weight total, reductions
over empty arrays, over-sized sampling without replacement, ...) return
`Option` and yield `none` exactly where the Python call raises.
-/

/-- The raw pseudo-random source: an infinite sequence of naturals. -/
def Tape : Type := ℕ → ℕ

/-- A tape together with the current read position (the single process-wide
random-stream state that every draw advances). -/
structure RState where
  tape : Tape
  pos : ℕ

/-- Read one raw value from the stream and advance. -/
def drawNext (s : RState) : ℕ × RState := (s.tape s.pos, ⟨s.tape, s.pos + 1⟩)

/-- A tape holding the given values, then zeros. -/
def tapeOf (l : List ℕ) : Tape := fun n => l.getD n 0

/-- `random.randint(a, b)`: integer in `[a, b]`, both ends inclusive. -/
def randint (a b : ℤ) (s : RState) : ℤ × RState :=
  let (t, s1) := drawNext s
  (a + (t : ℤ) % (b - a + 1), s1)

/-- `random.randint` restricted to naturals (used for counts). -/
def randIntNat (a b : ℕ) (s : RState) : ℕ × RState :=
  let (t, s1) := drawNext s
  (a + t % (b - a + 1), s1)

/-- `random.random()`: a fraction in `[0, 1)`, in thousandths. -/
def rfrac1000 (s : RState) : ℕ × RState :=
  let (t, s1) := drawNext s
  (t % 1000, s1)

/-- `random.choice(l)`: uniform element of a nonempty list; raises
(`IndexError`) on an empty one. -/
def rchoice {α : Type} (l : List α) (s : RState) : Option (α × RState) :=
  if h : l.length = 0 then none
  else
    let (t, s1) := drawNext s
    some (l.get ⟨t % l.length, Nat.mod_lt _ (Nat.pos_of_ne_zero h)⟩, s1)

/-- Cumulative-weight scan shared by `random.choices` and
`np.random.choice(..., p=...)`: walk the weight list, subtracting, until the
drawn point `u` falls inside a segment. -/
def weightedPick {α : Type} : List α → List ℤ → ℤ → Option α
  | [], _, _ => none
  | _ :: _, [], _ => none
  | a :: as, w :: ws, u => if u < w then some a else weightedPick as ws (u - w)

/-- `random.choices(pop, weights, k=1)[0]`: raises unless the weight list
matches the population in length and has a positive total.  The uniform
point `random.random() * total` is kept exact by scaling both it and the
weights by 1000. -/
def rchoices1 {α : Type} (pop : List α) (w : List ℤ) (s : RState) :
    Option (α × RState) :=
  if w.length = pop.length ∧ 0 < w.sum then
    (weightedPick pop (w.map fun x => 1000 * x)
      ((((drawNext s).1 % 1000 : ℕ) : ℤ) * w.sum)).map fun v => (v, (drawNext s).2)
  else none

/-- `random.choices(pop, weights, k)`: `k` independent weighted draws, with
replacement. -/
def rchoicesK {α : Type} : ℕ → List α → List ℤ → RState → Option (List α × RState)
  | 0, _, _, s => some ([], s)
  | k + 1, pop, w, s => do
    let (v, s1) ← rchoices1 pop w s
    let (vs, s2) ← rchoicesK k pop w s1
    pure (v :: vs, s2)

/-- `np.random.choice(vals, p=p)` with `p` in thousandths: numpy validates
that `p` matches the value list in length, has non-negative entries and sums
to 1 (here: 1000), else raises. -/
def npChoiceP {α : Type} (vals : List α) (p : List ℤ) (s : RState) :
    Option (α × RState) :=
  if p.length = vals.length ∧ (∀ x ∈ p, 0 ≤ x) ∧ p.sum = 1000 then
    (weightedPick vals p ((((drawNext s).1 % 1000 : ℕ)) : ℤ)).map fun v => (v, (drawNext s).2)
  else none

/-- Core of sampling without replacement: repeatedly pick an index among the
remaining elements and remove the chosen element. -/
def pickDistinct {α : Type} : ℕ → List α → RState → List α × RState
  | 0, _, s => ([], s)
  | _ + 1, [], s => ([], s)
  | k + 1, a :: l, s =>
    let i := (drawNext s).1 % (l.length + 1)
    let c := (a :: l).get ⟨i, Nat.mod_lt _ (Nat.succ_pos _)⟩
    let rest := pickDistinct k ((a :: l).eraseIdx i) (drawNext s).2
    (c :: rest.1, rest.2)

/-- `random.sample(pool, k)`; the script only calls it with
`k = min(len(pool), ...)`, so the draw always succeeds. -/
def rsample {α : Type} (pool : List α) (k : ℕ) (s : RState) : List α × RState :=
  pickDistinct k pool s

/-- `np.random.choice(pool, size=k, replace=False)`: distinct uniform draws;
raises (`ValueError`) when `k` exceeds the population size. -/
def npSampleNoRep {α : Type} (pool : List α) (k : ℕ) (s : RState) :
    Option (List α × RState) :=
  if k ≤ pool.length then some (pickDistinct k pool s) else none

/-! ## Configuration constants of the script -/

def NUM_SUPPLIERS : ℕ := 3000

def NUM_MATERIALS : ℕ := 7000

def TARGET_PO_COUNT : ℕ := 80000

/-- `TIER_DISTRIBUTION = [0.05, 0.10, 0.20, 0.30, 0.35]`, in thousandths. -/
def TIER_DISTRIBUTION : List ℤ := [50, 100, 200, 300, 350]

/-- `COUNTRY_WEIGHTS`, in thousandths. -/
def COUNTRY_WEIGHTS : List (String × ℤ) :=
  [("CN", 450), ("KR", 150), ("JP", 100), ("DE", 100), ("US", 100), ("XX", 100)]

/-- `date(2024, 1, 1)` as a proleptic-Gregorian day ordinal
(`datetime.date.toordinal`). -/
def date_2024_01_01 : ℤ := 738886

/-- `date(2025, 12, 31)` as a day ordinal. -/
def date_2025_12_31 : ℤ := 739616

/-- `current_date = date(2025, 10, 31)`, the simulation horizon cutoff, as a
day ordinal. -/
def current_date : ℤ := 739555

/-! ## Data model -/

structure Supplier where
  idx : ℕ          -- 1-based sequence number inside `SUP_{country}_{idx}`
  country : String
  label : ℕ        -- the opaque company-name draw from the label provider
  capacity : ℕ     -- `capacity_score`, hidden generation attribute
  deriving DecidableEq

structure Material where
  idx : ℕ          -- 1-based sequence number inside `MAT_T{tier}_{idx}`
  tier : ℕ         -- `tier_level`, 0 (finished good) .. 4 (raw material)
  descr : String
  baseUnit : String
  cost : ℕ         -- `cost_estimate`, hidden generation attribute, in cents
  deriving DecidableEq

structure BomEdge where
  parent : Material
  child : Material
  qty : ℕ          -- unit multiplier, in thousandths
  deriving DecidableEq

inductive FulfillStatus where
  | Full
  | Part
  | Missing
  deriving DecidableEq

structure PurchaseOrder where
  poId : ℕ
  supplier : ℕ       -- `supplier_id`, by supplier sequence number
  material : ℕ       -- `material_id`, by material sequence number
  orderDate : ℤ
  dueDate : ℤ
  receipt : Option ℤ
  qtyOrdered : ℕ
  qtyReceived : ℕ
  unitPrice : ℕ      -- in cents
  deriving DecidableEq

/-! ## Supplier generator -/

/-- `np.random.zipf(a=1.5, size=n)`: positive integers; modelled by shifting
raw tape values to `≥ 1`. -/
def zipfDraws : ℕ → RState → List ℕ × RState
  | 0, s => ([], s)
  | n + 1, s =>
    let rest := zipfDraws n (drawNext s).2
    (((drawNext s).1 + 1) :: rest.1, rest.2)

/-- `(d / max) * 50`, truncated by `astype(int)`, clamped below at 1 by
`np.maximum(scores, 1)`. -/
def capScore (d m : ℕ) : ℕ := max 1 (d * 50 / m)

/-- Per-supplier loop: weighted country draw, opaque name draw, record. -/
def supLoop : ℕ → List ℕ → List (String × ℤ) → RState → Option (List Supplier × RState)
  | _, [], _, s => some ([], s)
  | i, c :: cs, cw, s => do
    let (country, s1) ← rchoices1 (cw.map Prod.fst) (cw.map Prod.snd) s
    let nm := drawNext s1
    let (rest, s3) ← supLoop (i + 1) cs cw nm.2
    pure ({ idx := i + 1, country := country, label := nm.1, capacity := c } :: rest, s3)

/-- Generate Supplier Nodes: zipf capability scores are normalised by their
maximum — `dominance_scores.max()` raises on a zero-size array, so an empty
draw list (target count 0) fails — then each supplier gets a weighted
country, a name and a capacity score. -/
def genSuppliers (n : ℕ) (cw : List (String × ℤ)) (s : RState) :
    Option (List Supplier × RState) :=
  let ds := zipfDraws n s
  match ds.1.max? with
  | none => none
  | some m => supLoop 0 (ds.1.map fun d => capScore d m) cw ds.2

/-! ## Material generator -/

/-- The per-tier semantic vocabulary `tier_names`. -/
def tier_names : ℕ → List String
  | 0 => ["EV_Sedan", "EV_SUV", "EV_Truck"]
  | 1 => ["Battery_Pack_HighRange", "Battery_Pack_Std", "Inverter_Assy", "Drive_Unit"]
  | 2 => ["Module_LFP", "Module_NMC", "BMS_Circuit", "Cooling_Plate"]
  | 3 => ["Cell_Prismatic", "Cell_Cylindrical_4680", "Cell_Pouch", "Anode_Sheet"]
  | _ => ["Lithium_Hydroxide", "Cobalt_Sulfate", "Nickel_Class1", "Graphite_Synth", "Copper_Foil"]

/-- `round(random.lognormvariate(3, 1) * (5 - tier), 2)`: a positive real
draw scaled by `5 - tier`; modelled in cents (rounding exact at this
resolution). -/
def costDraw (tier : ℕ) (s : RState) : ℕ × RState :=
  (((drawNext s).1 % 1000 + 1) * (5 - tier), (drawNext s).2)

/-- Per-material loop: categorical tier draw (`np.random.choice` with
`p=TIER_DISTRIBUTION`), uniform vocabulary pick, log-normal cost. -/
def matLoop : ℕ → ℕ → List ℤ → RState → Option (List Material × RState)
  | _, 0, _, s => some ([], s)
  | i, k + 1, tierP, s => do
    let (tier, s1) ← npChoiceP [0, 1, 2, 3, 4] tierP s
    let (nm, s2) ← rchoice (tier_names tier) s1
    let c := costDraw tier s2
    let (rest, s4) ← matLoop (i + 1) k tierP c.2
    pure ({ idx := i + 1, tier := tier, descr := nm,
            baseUnit := if tier < 4 then "EA" else "KG",
            cost := c.1 } :: rest, s4)

def genMaterials (m : ℕ) (tierP : List ℤ) (s : RState) :
    Option (List Material × RState) :=
  matLoop 0 m tierP s

/-! ## BOM graph builder -/

/-- `mats_by_tier.get(t, [])`: the materials of one tier. -/
def matsOfTier (mats : List Material) (t : ℕ) : List Material :=
  mats.filter fun m => m.tier == t

/-- `max(1, int(np.random.poisson(lam=4.0 - tier*0.5)))`: the Poisson draw is
modelled by a bounded tape value; only its non-negative support matters. -/
def poissonFanout (s : RState) : ℕ × RState :=
  (max 1 ((drawNext s).1 % 9), (drawNext s).2)

/-- Child selection for one parent.  Tier 3 uses
`np.random.choice(pool, size=num, replace=False)` (no clamp — raises when
`num` exceeds the pool); all other tiers use
`random.sample(pool, k=min(len(pool), num))`. -/
def selectChildren (tier : ℕ) (pool : List Material) (num : ℕ) (s : RState) :
    Option (List Material × RState) :=
  if tier = 3 then npSampleNoRep pool num s
  else some (rsample pool (min pool.length num) s)

/-- Per-edge quantity: `round(uniform(1, 20), 2)` is always drawn, and for
tier 3 a second draw `round(uniform(0.5, 5), 3)` overwrites it.  Quantities
are in thousandths of a unit. -/
def edgeQty (tier : ℕ) (s : RState) : ℕ × RState :=
  let q1 := (100 + (drawNext s).1 % 1901) * 10
  if tier = 3 then
    (500 + (drawNext (drawNext s).2).1 % 4501, (drawNext (drawNext s).2).2)
  else (q1, (drawNext s).2)

/-- Append one edge per selected child of a parent. -/
def edgesFor (tier : ℕ) (parent : Material) : List Material → RState → List BomEdge × RState
  | [], s => ([], s)
  | c :: cs, s =>
    let q := edgeQty tier s
    let rest := edgesFor tier parent cs q.2
    ({ parent := parent, child := c, qty := q.1 } :: rest.1, rest.2)

/-- One tier transition: fan-out draw and child selection per parent. -/
def transFor (tier : ℕ) (pool : List Material) :
    List Material → RState → Option (List BomEdge × RState)
  | [], s => some ([], s)
  | p :: ps, s => do
    let num := poissonFanout s
    let (cs, s2) ← selectChildren tier pool num.1 num.2
    let es := edgesFor tier p cs s2
    let (rest, s4) ← transFor tier pool ps es.2
    pure (es.1 ++ rest, s4)

/-- One adjacent-tier layer of the builder: `if not potential_children:
continue` — an empty child pool skips the layer without drawing anything. -/
def transEdges (mats : List Material) (tier : ℕ) (s : RState) :
    Option (List BomEdge × RState) :=
  let pool := matsOfTier mats (tier + 1)
  if pool.isEmpty then some ([], s)
  else transFor tier pool (matsOfTier mats tier) s

/-- `for tier in range(4)`: the four adjacent-tier layers in order. -/
def buildBOM (mats : List Material) (s : RState) : Option (List BomEdge × RState) := do
  let (e0, s0) ← transEdges mats 0 s
  let (e1, s1) ← transEdges mats 1 s0
  let (e2, s2) ← transEdges mats 2 s1
  let (e3, s3) ← transEdges mats 3 s2
  pure (e0 ++ e1 ++ e2 ++ e3, s3)

/-! ## Approved-supplier-list assigner -/

/-- `mat_supplier_map`: for every material, `random.choices` over the
suppliers weighted by capacity score, `k = random.randint(1, 3)`. -/
def genASL : List Material → List Supplier → RState → Option (List (ℕ × List ℕ) × RState)
  | [], _, s => some ([], s)
  | mat :: ms, sups, s => do
    let k := randIntNat 1 3 s
    let (picked, s2) ← rchoicesK k.1 sups (sups.map fun x => (x.capacity : ℤ)) k.2
    let (rest, s3) ← genASL ms sups s2
    pure ((mat.idx, picked.map Supplier.idx) :: rest, s3)

/-! ## Purchase order simulator -/

/-- `int(np.random.pareto(a=1.16) * 50) + 1`: the Pareto draw is a
non-negative real (here in hundredths), so the quantity is `≥ 1`. -/
def paretoQty (s : RState) : ℕ × RState :=
  (((drawNext s).1 % 10000) * 50 / 100 + 1, (drawNext s).2)

/-- The fulfillment-status probability vector `[0.85, 0.10, 0.05]`, in
thousandths. -/
def STATUS_P : List ℤ := [850, 100, 50]

/-- `random.uniform(0.1, 0.9)`, in thousandths. -/
def partialFrac (s : RState) : ℕ × RState :=
  (100 + (drawNext s).1 % 801, (drawNext s).2)

/-- The fulfillment branch: open orders (due after the horizon) receive
nothing; resolved orders draw a categorical status and the per-status
quantities and receipt dates.  `int(quantity_ordered * uniform(0.1, 0.9))`
becomes `qty * fr / 1000` (natural floor division).  The drawn status is
returned alongside (it is not a column of the record). -/
def fulfillDraw (due : ℤ) (qty : ℕ) (s : RState) :
    Option (ℕ × Option ℤ × Option FulfillStatus × RState) :=
  if current_date < due then some (0, none, none, s)
  else do
    let (st, s1) ← npChoiceP [FulfillStatus.Full, FulfillStatus.Part, FulfillStatus.Missing] STATUS_P s
    match st with
    | FulfillStatus.Full =>
      let off := randint (-2) 10 s1
      pure (qty, some (due + off.1), some FulfillStatus.Full, off.2)
    | FulfillStatus.Part =>
      let fr := partialFrac s1
      let off := randint 1 15 fr.2
      pure (qty * fr.1 / 1000, some (due + off.1), some FulfillStatus.Part, off.2)
    | FulfillStatus.Missing => pure (0, none, some FulfillStatus.Missing, s1)

/-- `round(cost_estimate * uniform(0.95, 1.05), 2)`: price noise in
thousandths, result in cents (half-up rounding). -/
def priceDraw (cost : ℕ) (s : RState) : ℕ × RState :=
  ((cost * (950 + (drawNext s).1 % 101) + 500) / 1000, (drawNext s).2)

/-- One iteration of the PO while-loop. -/
def simulateIter (mats : List Material) (aslm : List (ℕ × List ℕ)) (pid : ℕ)
    (s : RState) : Option (PurchaseOrder × Option FulfillStatus × RState) := do
  let (mat, s1) ← rchoice mats s
  let valid ← aslm.lookup mat.idx
  let (sup, s2) ← rchoice valid s1
  let pd := randint date_2024_01_01 date_2025_12_31 s2
  let ld := randint 14 90 pd.2
  let due := pd.1 + ld.1
  let bf := rfrac1000 ld.2
  let q := if bf.1 < 200 then paretoQty bf.2 else randIntNat 1 100 bf.2
  let (rec1, rcpt, st, s7) ← fulfillDraw due q.1 q.2
  let pr := priceDraw mat.cost s7
  pure ({ poId := pid, supplier := sup, material := mat.idx, orderDate := pd.1,
          dueDate := due, receipt := rcpt, qtyOrdered := q.1, qtyReceived := rec1,
          unitPrice := pr.1 }, st, pr.2)

/-- `while current_po_count < TARGET_PO_COUNT`: each iteration appends exactly
one record and increments the counter, so the loop runs the remaining-count
times. -/
def simulateOrders (mats : List Material) (aslm : List (ℕ × List ℕ)) :
    ℕ → ℕ → RState → Option (List (PurchaseOrder × Option FulfillStatus) × RState)
  | 0, _, s => some ([], s)
  | n + 1, pid, s => do
    let (o, st, s1) ← simulateIter mats aslm pid s
    let (rest, s2) ← simulateOrders mats aslm n (pid + 1) s1
    pure ((o, st) :: rest, s2)

/-! ## The pipeline -/

structure GenConfig where
  numSuppliers : ℕ
  numMaterials : ℕ
  targetPoCount : ℕ
  tierDist : List ℤ
  countryWeights : List (String × ℤ)
  deriving DecidableEq

structure GenOutput where
  suppliers : List Supplier
  materials : List Material
  bom : List BomEdge
  asl : List (ℕ × List ℕ)
  orders : List (PurchaseOrder × Option FulfillStatus)
  deriving DecidableEq

/-- The script's configuration constants. -/
def defaultConfig : GenConfig :=
  { numSuppliers := NUM_SUPPLIERS, numMaterials := NUM_MATERIALS,
    targetPoCount := TARGET_PO_COUNT, tierDist := TIER_DISTRIBUTION,
    countryWeights := COUNTRY_WEIGHTS }

/-- The full generation pipeline in script order: suppliers, materials, BOM
edges, ASL mapping, purchase orders (`po_id_counter` starts at 100000). -/
def pipeline (cfg : GenConfig) (s : RState) : Option GenOutput :=
  match genSuppliers cfg.numSuppliers cfg.countryWeights s with
  | none => none
  | some (sups, s1) =>
    match genMaterials cfg.numMaterials cfg.tierDist s1 with
    | none => none
    | some (mats, s2) =>
      match buildBOM mats s2 with
      | none => none
      | some (edges, s3) =>
        match genASL mats sups s3 with
        | none => none
        | some (aslm, s4) =>
          match simulateOrders mats aslm cfg.targetPoCount 100000 s4 with
          | none => none
          | some (ords, _) => some ⟨sups, mats, edges, aslm, ords⟩

/-- A deterministic model of the seeded pseudo-random generators: a linear
congruential step iterated from the seed.  All three library generators are
seeded once from the same integer, so the whole draw sequence is a function
of that seed alone. -/
def lcgNext (x : ℕ) : ℕ := (1103515245 * x + 12345) % 2147483648

/-- The tape derived deterministically from a seed. -/
def seedTape (seed : ℕ) : Tape := fun n => lcgNext^[n + 1] seed

/-- A full run: seed the stream once, then run the pipeline. -/
def runPipeline (seed : ℕ) (cfg : GenConfig) : Option GenOutput :=
  pipeline cfg ⟨seedTape seed, 0⟩

/-! ## Sampler lemmas -/

theorem randint_le {a b : ℤ} (hab : a ≤ b) (s : RState) :
    a ≤ (randint a b s).1 ∧ (randint a b s).1 ≤ b := by
  unfold randint drawNext
  have hpos : (0 : ℤ) < b - a + 1 := by omega
  have h1 := Int.emod_nonneg ((s.tape s.pos : ℤ)) (by omega : b - a + 1 ≠ 0)
  have h2 := Int.emod_lt_of_pos ((s.tape s.pos : ℤ)) hpos
  constructor <;> simp only [] <;> omega

theorem randIntNat_le {a b : ℕ} (s : RState) :
    a ≤ (randIntNat a b s).1 ∧ (a ≤ b → (randIntNat a b s).1 ≤ b) := by
  unfold randIntNat drawNext
  have h2 := Nat.mod_lt (s.tape s.pos) (y := b - a + 1) (by omega)
  constructor <;> simp only [] <;> omega

theorem rchoice_mem {α : Type} {l : List α} {s : RState} {v : α} {s1 : RState}
    (h : rchoice l s = some (v, s1)) : v ∈ l := by
  unfold rchoice drawNext at h
  split at h
  · exact absurd h (by simp)
  · simp only [Option.some.injEq, Prod.mk.injEq] at h
    exact h.1 ▸ List.get_mem _ _ _

theorem weightedPick_mem {α : Type} :
    ∀ {pop : List α} {w : List ℤ} {u : ℤ} {v : α},
      weightedPick pop w u = some v → v ∈ pop
  | [], _, _, _, h => by simp [weightedPick] at h
  | _ :: _, [], _, _, h => by simp [weightedPick] at h
  | a :: as, ww :: ws, u, v, h => by
    unfold weightedPick at h
    split at h
    · simp only [Option.some.injEq] at h
      exact h ▸ List.mem_cons_self a as
    · exact List.mem_cons_of_mem a (weightedPick_mem h)

theorem weightedPick_isSome {α : Type} :
    ∀ {pop : List α} {w : List ℤ} {u : ℤ},
      w.length = pop.length → 0 ≤ u → u < w.sum →
      (weightedPick pop w u).isSome
  | [], w, u, hlen, hu0, husum => by
    have hw : w = [] := List.length_eq_zero.mp (by simpa using hlen)
    subst hw
    simp only [List.sum_nil] at husum
    omega
  | a :: as, [], u, hlen, hu0, husum => by simp at hlen
  | a :: as, ww :: ws, u, hlen, hu0, husum => by
    unfold weightedPick
    split
    · rfl
    · next hlt =>
      rcases as with _ | ⟨b, bs⟩
      · simp at hlen
        subst hlen
        simp at husum
        omega
      · exact weightedPick_isSome (by simpa using hlen) (by omega)
          (by simp only [List.sum_cons] at husum; omega)

theorem sum_map_mul_1000 (w : List ℤ) : (w.map fun x => 1000 * x).sum = 1000 * w.sum := by
  induction w with
  | nil => simp
  | cons a l ih => simp [ih, mul_add]

theorem rchoices1_mem {α : Type} {pop : List α} {w : List ℤ} {s : RState}
    {v : α} {s1 : RState} (h : rchoices1 pop w s = some (v, s1)) : v ∈ pop := by
  unfold rchoices1 at h
  split at h
  · rw [Option.map_eq_some'] at h
    obtain ⟨x, hx, hxe⟩ := h
    cases hxe
    exact weightedPick_mem hx
  · exact Option.noConfusion h

theorem rchoices1_isSome {α : Type} {pop : List α} {w : List ℤ} (s : RState)
    (hlen : w.length = pop.length) (hsum : 0 < w.sum) :
    (rchoices1 pop w s).isSome := by
  unfold rchoices1
  rw [if_pos ⟨hlen, hsum⟩, Option.isSome_map']
  have hm : ((drawNext s).1 % 1000) < 1000 := Nat.mod_lt _ (by omega)
  have hu0 : (0 : ℤ) ≤ (((drawNext s).1 % 1000 : ℕ) : ℤ) * w.sum :=
    mul_nonneg (Int.natCast_nonneg _) (le_of_lt hsum)
  have husum : (((drawNext s).1 % 1000 : ℕ) : ℤ) * w.sum < (w.map fun x => 1000 * x).sum := by
    rw [sum_map_mul_1000]
    have hc : ((((drawNext s).1 % 1000 : ℕ)) : ℤ) < 1000 := by exact_mod_cast hm
    exact mul_lt_mul_of_pos_right hc hsum
  exact weightedPick_isSome (by simpa using hlen) hu0 husum

theorem rchoicesK_spec {α : Type} :
    ∀ {k : ℕ} {pop : List α} {w : List ℤ} {s : RState} {vs : List α} {s1 : RState},
      rchoicesK k pop w s = some (vs, s1) →
      vs.length = k ∧ ∀ v ∈ vs, v ∈ pop
  | 0, pop, w, s, vs, s1, h => by
    simp only [rchoicesK, Option.some.injEq, Prod.mk.injEq] at h
    simp [← h.1]
  | k + 1, pop, w, s, vs, s1, h => by
    simp only [rchoicesK, bind, Option.bind_eq_some] at h
    obtain ⟨⟨v, sa⟩, h1, h2⟩ := h
    obtain ⟨⟨ws', sb⟩, h3, h4⟩ := h2
    simp only [pure, Option.some.injEq, Prod.mk.injEq] at h4
    obtain ⟨hvs, -⟩ := h4
    obtain ⟨hl, hmem⟩ := rchoicesK_spec h3
    subst hvs
    refine ⟨by simp [hl], ?_⟩
    intro x hx
    rcases List.mem_cons.mp hx with rfl | hx
    · exact rchoices1_mem h1
    · exact hmem x hx

theorem rchoicesK_isSome {α : Type} :
    ∀ (k : ℕ) {pop : List α} {w : List ℤ} (s : RState),
      w.length = pop.length → 0 < w.sum → (rchoicesK k pop w s).isSome
  | 0, pop, w, s, _, _ => rfl
  | k + 1, pop, w, s, hlen, hsum => by
    simp only [rchoicesK, bind]
    obtain ⟨⟨v, sa⟩, hv⟩ := Option.isSome_iff_exists.mp (rchoices1_isSome s hlen hsum)
    rw [hv]
    obtain ⟨⟨vs, sb⟩, hvs⟩ :=
      Option.isSome_iff_exists.mp (rchoicesK_isSome k sa hlen hsum)
    simp [hvs, pure]

theorem npChoiceP_mem {α : Type} {vals : List α} {p : List ℤ} {s : RState}
    {v : α} {s1 : RState} (h : npChoiceP vals p s = some (v, s1)) : v ∈ vals := by
  unfold npChoiceP at h
  split at h
  · rw [Option.map_eq_some'] at h
    obtain ⟨x, hx, hxe⟩ := h
    cases hxe
    exact weightedPick_mem hx
  · exact Option.noConfusion h

theorem npChoiceP_isSome {α : Type} {vals : List α} {p : List ℤ} (s : RState)
    (hlen : p.length = vals.length) (hpos : ∀ x ∈ p, 0 ≤ x) (hsum : p.sum = 1000) :
    (npChoiceP vals p s).isSome := by
  unfold npChoiceP
  rw [if_pos ⟨hlen, hpos, hsum⟩, Option.isSome_map']
  have hm : ((drawNext s).1 % 1000) < 1000 := Nat.mod_lt _ (by omega)
  exact weightedPick_isSome hlen (Int.natCast_nonneg _) (by rw [hsum]; exact_mod_cast hm)

/-! ## Sampling-without-replacement lemmas -/

theorem get_not_mem_eraseIdx {α : Type} :
    ∀ (l : List α), l.Nodup → ∀ (i : ℕ) (h : i < l.length),
      l.get ⟨i, h⟩ ∉ l.eraseIdx i
  | [], _, i, h => by simp at h
  | a :: l, hnd, 0, h => by
    simpa using (List.nodup_cons.mp hnd).1
  | a :: l, hnd, i + 1, h => by
    simp only [List.eraseIdx_cons_succ, List.get_cons_succ, List.mem_cons]
    push_neg
    refine ⟨?_, get_not_mem_eraseIdx l (List.nodup_cons.mp hnd).2 i (by simpa using h)⟩
    intro heq
    exact (List.nodup_cons.mp hnd).1 (heq ▸ List.get_mem _ _ _)

theorem pickDistinct_subset {α : Type} :
    ∀ (k : ℕ) (l : List α) (s : RState) (x : α),
      x ∈ (pickDistinct k l s).1 → x ∈ l
  | 0, l, s, x, hx => by simp [pickDistinct] at hx
  | k + 1, [], s, x, hx => by simp [pickDistinct] at hx
  | k + 1, a :: l, s, x, hx => by
    simp only [pickDistinct, List.mem_cons] at hx
    rcases hx with rfl | hx
    · exact List.get_mem _ _ _
    · exact List.eraseIdx_subset _ _ (pickDistinct_subset k _ _ x hx)

theorem pickDistinct_nodup {α : Type} :
    ∀ (k : ℕ) (l : List α), l.Nodup → ∀ (s : RState),
      (pickDistinct k l s).1.Nodup
  | 0, l, _, s => by simp [pickDistinct]
  | k + 1, [], _, s => by simp [pickDistinct]
  | k + 1, a :: l, hnd, s => by
    simp only [pickDistinct, List.nodup_cons]
    refine ⟨fun hmem => ?_, pickDistinct_nodup k _ (hnd.sublist (List.eraseIdx_sublist _ _)) _⟩
    exact get_not_mem_eraseIdx (a :: l) hnd _ _ (pickDistinct_subset k _ _ _ hmem)

theorem pickDistinct_length {α : Type} :
    ∀ (k : ℕ) (l : List α) (s : RState),
      (pickDistinct k l s).1.length = min k l.length
  | 0, l, s => by simp [pickDistinct]
  | k + 1, [], s => by simp [pickDistinct]
  | k + 1, a :: l, s => by
    simp only [pickDistinct, List.length_cons]
    rw [pickDistinct_length k _ _]
    have he : ((a :: l).eraseIdx ((drawNext s).1 % (l.length + 1))).length = l.length := by
      rw [List.length_eraseIdx_of_lt (by simpa using Nat.mod_lt _ (Nat.succ_pos l.length))]
      simp
    rw [he]
    omega

/-- Any element of the pool can be drawn first: a tape whose first value is
the element's index realises it. -/
theorem pickDistinct_reach {α : Type} (l : List α) (k : ℕ) (hk : 1 ≤ k) (y : α)
    (hy : y ∈ l) : ∃ s : RState, y ∈ (pickDistinct k l s).1 := by
  obtain ⟨⟨i, hi⟩, rfl⟩ := List.mem_iff_get.mp hy
  rcases l with _ | ⟨a, l⟩
  · simp at hi
  · rcases k with _ | k
    · omega
    · refine ⟨⟨tapeOf [i], 0⟩, ?_⟩
      simp only [pickDistinct, List.mem_cons]
      left
      have hmod : (drawNext (⟨tapeOf [i], 0⟩ : RState)).1 % (l.length + 1) = i := by
        have : (drawNext (⟨tapeOf [i], 0⟩ : RState)).1 = i := rfl
        rw [this]
        exact Nat.mod_eq_of_lt (by simpa using hi)
      congr 1
      exact Fin.ext hmod.symm

/-! ## Supplier-generator lemmas -/

theorem zipfDraws_length : ∀ (n : ℕ) (s : RState), (zipfDraws n s).1.length = n
  | 0, s => rfl
  | n + 1, s => by
    simp only [zipfDraws, List.length_cons]
    rw [zipfDraws_length n _]

theorem supLoop_length :
    ∀ {i : ℕ} {cs : List ℕ} {cw : List (String × ℤ)} {s : RState}
      {l : List Supplier} {s1 : RState},
      supLoop i cs cw s = some (l, s1) → l.length = cs.length
  | i, [], cw, s, l, s1, h => by
    simp only [supLoop, Option.some.injEq, Prod.mk.injEq] at h
    simp [← h.1]
  | i, c :: cs, cw, s, l, s1, h => by
    simp only [supLoop, bind, Option.bind_eq_some] at h
    obtain ⟨⟨country, sa⟩, h1, h2⟩ := h
    obtain ⟨⟨rest, sb⟩, h3, h4⟩ := h2
    simp only [pure, Option.some.injEq, Prod.mk.injEq] at h4
    obtain ⟨hl, -⟩ := h4
    subst hl
    simp [supLoop_length h3]

theorem supLoop_isSome :
    ∀ (i : ℕ) (cs : List ℕ) {cw : List (String × ℤ)} (s : RState),
      0 < (cw.map Prod.snd).sum → (supLoop i cs cw s).isSome
  | i, [], cw, s, hsum => rfl
  | i, c :: cs, cw, s, hsum => by
    simp only [supLoop, bind]
    obtain ⟨⟨country, sa⟩, hv⟩ := Option.isSome_iff_exists.mp
      (@rchoices1_isSome String (cw.map Prod.fst) (cw.map Prod.snd) s (by simp) hsum)
    rw [hv]
    obtain ⟨⟨rest, sb⟩, hr⟩ := Option.isSome_iff_exists.mp
      (supLoop_isSome (i + 1) cs (drawNext sa).2 hsum)
    simp [hr, pure]

theorem genSuppliers_length {n : ℕ} {cw : List (String × ℤ)} {s : RState}
    {l : List Supplier} {s1 : RState}
    (h : genSuppliers n cw s = some (l, s1)) : l.length = n := by
  simp only [genSuppliers] at h
  split at h
  · exact Option.noConfusion h
  · rw [supLoop_length h]
    simp [zipfDraws_length]

theorem genSuppliers_isSome (n : ℕ) {cw : List (String × ℤ)} (s : RState)
    (hn : 1 ≤ n) (hsum : 0 < (cw.map Prod.snd).sum) :
    (genSuppliers n cw s).isSome := by
  simp only [genSuppliers]
  split
  · next hmax =>
    exact absurd (List.max?_eq_none_iff.mp hmax)
      (by simpa [← List.length_eq_zero, zipfDraws_length] using by omega)
  · exact supLoop_isSome 0 _ _ hsum

theorem genSuppliers_zero (cw : List (String × ℤ)) (s : RState) :
    genSuppliers 0 cw s = none := rfl

/-! ## Material-generator lemmas -/

theorem matLoop_length :
    ∀ {i k : ℕ} {tierP : List ℤ} {s : RState} {l : List Material} {s1 : RState},
      matLoop i k tierP s = some (l, s1) → l.length = k
  | i, 0, tierP, s, l, s1, h => by
    simp only [matLoop, Option.some.injEq, Prod.mk.injEq] at h
    simp [← h.1]
  | i, k + 1, tierP, s, l, s1, h => by
    simp only [matLoop, bind, Option.bind_eq_some] at h
    obtain ⟨⟨tier, sa⟩, h1, h2⟩ := h
    obtain ⟨⟨nm, sb⟩, h3, h4⟩ := h2
    obtain ⟨⟨rest, sc⟩, h5, h6⟩ := h4
    simp only [pure, Option.some.injEq, Prod.mk.injEq] at h6
    obtain ⟨hl, -⟩ := h6
    subst hl
    simp [matLoop_length h5]

/-- An invalid tier-probability vector is only detected at the first
categorical tier draw: with at least one material to generate, the material
stage fails. -/
theorem matLoop_invalid {tierP : List ℤ}
    (hbad : ¬(tierP.length = 5 ∧ (∀ x ∈ tierP, 0 ≤ x) ∧ tierP.sum = 1000))
    (i k : ℕ) (hk : 1 ≤ k) (s : RState) : matLoop i k tierP s = none := by
  rcases k with _ | k
  · omega
  · simp only [matLoop, bind]
    have : npChoiceP [0, 1, 2, 3, 4] tierP s = none := by
      unfold npChoiceP
      rw [if_neg (by simpa using hbad)]
    rw [this]
    rfl

/-! ## BOM-builder lemmas -/

theorem matsOfTier_tier {mats : List Material} {t : ℕ} {m : Material}
    (h : m ∈ matsOfTier mats t) : m.tier = t := by
  have := (List.mem_filter.mp h).2
  simpa using this

theorem selectChildren_subset {tier : ℕ} {pool : List Material} {num : ℕ}
    {s : RState} {cs : List Material} {s2 : RState}
    (h : selectChildren tier pool num s = some (cs, s2)) :
    ∀ x ∈ cs, x ∈ pool := by
  unfold selectChildren npSampleNoRep rsample at h
  intro x hx
  split at h
  · split at h
    · simp only [Option.some.injEq] at h
      exact pickDistinct_subset num pool s x (by rw [congrArg Prod.fst h]; exact hx)
    · exact Option.noConfusion h
  · simp only [Option.some.injEq] at h
    exact pickDistinct_subset (min pool.length num) pool s x
      (by rw [congrArg Prod.fst h]; exact hx)

theorem edgesFor_mem {tier : ℕ} {p : Material} :
    ∀ {cs : List Material} {s : RState} {e : BomEdge},
      e ∈ (edgesFor tier p cs s).1 → e.parent = p ∧ e.child ∈ cs
  | [], s, e, he => by simp [edgesFor] at he
  | c :: cs, s, e, he => by
    simp only [edgesFor, List.mem_cons] at he
    rcases he with rfl | he
    · exact ⟨rfl, List.mem_cons_self _ _⟩
    · obtain ⟨h1, h2⟩ := edgesFor_mem he
      exact ⟨h1, List.mem_cons_of_mem _ h2⟩

theorem transFor_mem {tier : ℕ} {pool : List Material} :
    ∀ {ps : List Material} {s : RState} {es : List BomEdge} {s1 : RState},
      transFor tier pool ps s = some (es, s1) →
      ∀ e ∈ es, e.parent ∈ ps ∧ e.child ∈ pool
  | [], s, es, s1, h => by
    simp only [transFor, Option.some.injEq, Prod.mk.injEq] at h
    simp [← h.1]
  | p :: ps, s, es, s1, h => by
    simp only [transFor, bind, Option.bind_eq_some] at h
    obtain ⟨⟨cs, sa⟩, h1, h2⟩ := h
    obtain ⟨⟨rest, sb⟩, h3, h4⟩ := h2
    simp only [pure, Option.some.injEq, Prod.mk.injEq] at h4
    obtain ⟨hl, -⟩ := h4
    subst hl
    intro e he
    rcases List.mem_append.mp he with he | he
    · obtain ⟨h5, h6⟩ := edgesFor_mem he
      exact ⟨h5 ▸ List.mem_cons_self _ _, selectChildren_subset h1 _ h6⟩
    · obtain ⟨h5, h6⟩ := transFor_mem h3 e he
      exact ⟨List.mem_cons_of_mem _ h5, h6⟩

theorem transEdges_mem {mats : List Material} {tier : ℕ} {s : RState}
    {es : List BomEdge} {s1 : RState}
    (h : transEdges mats tier s = some (es, s1)) :
    ∀ e ∈ es, e.parent.tier = tier ∧ e.child.tier = tier + 1 := by
  simp only [transEdges] at h
  split at h
  · simp only [Option.some.injEq, Prod.mk.injEq] at h
    simp [← h.1]
  · intro e he
    obtain ⟨h1, h2⟩ := transFor_mem h e he
    exact ⟨matsOfTier_tier h1, matsOfTier_tier h2⟩

/-- An empty child pool skips the transition: no edges, no failure, and the
random stream is not advanced. -/
theorem transEdges_empty_pool {mats : List Material} {tier : ℕ} (s : RState)
    (h : matsOfTier mats (tier + 1) = []) :
    transEdges mats tier s = some ([], s) := by
  unfold transEdges
  rw [if_pos (by simp [h])]

theorem buildBOM_edges {mats : List Material} {s : RState}
    {es : List BomEdge} {s1 : RState}
    (h : buildBOM mats s = some (es, s1)) :
    ∀ e ∈ es, e.child.tier = e.parent.tier + 1 ∧ e.parent ≠ e.child := by
  simp only [buildBOM, bind, Option.bind_eq_some] at h
  obtain ⟨⟨e0, sa⟩, h0, h⟩ := h
  obtain ⟨⟨e1, sb⟩, h1, h⟩ := h
  obtain ⟨⟨e2, sc⟩, h2, h⟩ := h
  obtain ⟨⟨e3, sd⟩, h3, h⟩ := h
  simp only [pure, Option.some.injEq, Prod.mk.injEq] at h
  obtain ⟨hl, -⟩ := h
  subst hl
  intro e he
  have key : e.parent.tier + 1 = e.child.tier := by
    rcases List.mem_append.mp he with he' | he'
    · rcases List.mem_append.mp he' with he'' | he''
      · rcases List.mem_append.mp he'' with he3 | he3
        · obtain ⟨hp, hc⟩ := transEdges_mem h0 e he3
          omega
        · obtain ⟨hp, hc⟩ := transEdges_mem h1 e he3
          omega
      · obtain ⟨hp, hc⟩ := transEdges_mem h2 e he''
        omega
    · obtain ⟨hp, hc⟩ := transEdges_mem h3 e he'
      omega
  refine ⟨key.symm, fun hpc => ?_⟩
  rw [hpc] at key
  omega

/-! ## ASL lemmas -/

theorem lookup_mem {β : Type} {l : List (ℕ × β)} {k : ℕ} {v : β}
    (h : l.lookup k = some v) : (k, v) ∈ l := by
  obtain ⟨l1, l2, hl, -⟩ := List.lookup_eq_some_iff.mp h
  subst hl
  simp

theorem genASL_entries :
    ∀ {ms : List Material} {sups : List Supplier} {s : RState}
      {m : List (ℕ × List ℕ)} {s1 : RState},
      genASL ms sups s = some (m, s1) →
      ∀ kv ∈ m, 1 ≤ kv.2.length ∧ kv.2.length ≤ 3 ∧
        ∀ x ∈ kv.2, ∃ sup ∈ sups, sup.idx = x
  | [], sups, s, m, s1, h => by
    simp only [genASL, Option.some.injEq, Prod.mk.injEq] at h
    simp [← h.1]
  | mat :: ms, sups, s, m, s1, h => by
    simp only [genASL, bind, Option.bind_eq_some] at h
    obtain ⟨⟨picked, sa⟩, h1, h2⟩ := h
    obtain ⟨⟨rest, sb⟩, h3, h4⟩ := h2
    simp only [pure, Option.some.injEq, Prod.mk.injEq] at h4
    obtain ⟨hl, -⟩ := h4
    subst hl
    intro kv hkv
    rcases List.mem_cons.mp hkv with rfl | hkv
    · obtain ⟨hlen, hmem⟩ := rchoicesK_spec h1
      have hk := randIntNat_le (a := 1) (b := 3) s
      refine ⟨?_, ?_, ?_⟩
      · simp only [List.length_map, hlen]
        exact hk.1
      · simp only [List.length_map, hlen]
        exact hk.2 (by omega)
      · intro x hx
        obtain ⟨sup, hsup, rfl⟩ := List.mem_map.mp hx
        exact ⟨sup, hmem sup hsup, rfl⟩
    · exact genASL_entries h3 kv hkv

/-! ## Purchase-order simulator lemmas -/

theorem simulateOrders_length {mats : List Material} {aslm : List (ℕ × List ℕ)} :
    ∀ {n pid : ℕ} {s : RState} {l : List (PurchaseOrder × Option FulfillStatus)}
      {s1 : RState},
      simulateOrders mats aslm n pid s = some (l, s1) → l.length = n
  | 0, pid, s, l, s1, h => by
    simp only [simulateOrders, Option.some.injEq, Prod.mk.injEq] at h
    simp [← h.1]
  | n + 1, pid, s, l, s1, h => by
    simp only [simulateOrders, bind, Option.bind_eq_some] at h
    obtain ⟨⟨o, st, sa⟩, h1, h2⟩ := h
    obtain ⟨⟨rest, sb⟩, h3, h4⟩ := h2
    simp only [pure, Option.some.injEq, Prod.mk.injEq] at h4
    obtain ⟨hl, -⟩ := h4
    subst hl
    simp [simulateOrders_length h3]

theorem fulfillDraw_spec {due : ℤ} {qty : ℕ} {s : RState}
    {r : ℕ} {rcpt : Option ℤ} {st : Option FulfillStatus} {s7 : RState}
    (h : fulfillDraw due qty s = some (r, rcpt, st, s7)) (hq : 1 ≤ qty) :
    (current_date < due → r = 0 ∧ rcpt = none ∧ st = none) ∧
    (due ≤ current_date →
      ∃ st0, st = some st0 ∧ r ≤ qty ∧
        (st0 = FulfillStatus.Full → r = qty) ∧
        (st0 = FulfillStatus.Part → r < qty) ∧
        (st0 = FulfillStatus.Missing → r = 0) ∧
        ((rcpt ≠ none) ↔ st0 ≠ FulfillStatus.Missing)) := by
  unfold fulfillDraw at h
  split at h
  · next hlt =>
    simp only [Option.some.injEq, Prod.mk.injEq] at h
    obtain ⟨hr, hrcpt, hst, -⟩ := h
    exact ⟨fun _ => ⟨hr.symm, hrcpt.symm, hst.symm⟩, fun hle => absurd hlt (by omega)⟩
  · next hge =>
    refine ⟨fun hlt => absurd hlt hge, fun _ => ?_⟩
    simp only [bind, Option.bind_eq_some] at h
    obtain ⟨⟨st0, s1⟩, h1, h2⟩ := h
    cases st0 with
    | Full =>
      simp only [pure, Option.some.injEq, Prod.mk.injEq] at h2
      obtain ⟨hr, hrcpt, hst, -⟩ := h2
      refine ⟨FulfillStatus.Full, hst.symm, by omega, fun _ => hr.symm, ?_, ?_, ?_⟩
      · intro hc
        exact absurd hc (by simp)
      · intro hc
        exact absurd hc (by simp)
      · rw [← hrcpt]
        simp
    | Part =>
      simp only [pure, Option.some.injEq, Prod.mk.injEq] at h2
      obtain ⟨hr, hrcpt, hst, -⟩ := h2
      have hfr : (partialFrac s1).1 ≤ 900 := by
        simp only [partialFrac]
        have := Nat.mod_lt (drawNext s1).1 (y := 801) (by omega)
        omega
      have hlt : qty * (partialFrac s1).1 / 1000 < qty := by
        rw [Nat.div_lt_iff_lt_mul (by omega)]
        have h1 : qty * (partialFrac s1).1 ≤ qty * 900 := Nat.mul_le_mul_left _ hfr
        omega
      refine ⟨FulfillStatus.Part, hst.symm, by omega, ?_, fun _ => by omega, ?_, ?_⟩
      · intro hc
        exact absurd hc (by simp)
      · intro hc
        exact absurd hc (by simp)
      · rw [← hrcpt]
        simp
    | Missing =>
      simp only [pure, Option.some.injEq, Prod.mk.injEq] at h2
      obtain ⟨hr, hrcpt, hst, -⟩ := h2
      refine ⟨FulfillStatus.Missing, hst.symm, by omega, ?_, ?_, fun _ => hr.symm, ?_⟩
      · intro hc
        exact absurd hc (by simp)
      · intro hc
        exact absurd hc (by simp)
      · rw [← hrcpt]
        simp

theorem qtyDraw_ge_one (b : ℕ) (s : RState) :
    1 ≤ (if b < 200 then paretoQty s else randIntNat 1 100 s).1 := by
  split
  · simp [paretoQty]
  · exact (randIntNat_le s).1

/-- Master inversion lemma for one simulator iteration: the produced record
satisfies the sourcing constraint, the date arithmetic and the fulfillment
branch behaviour. -/
theorem simulateIter_spec {mats : List Material} {aslm : List (ℕ × List ℕ)}
    {pid : ℕ} {s : RState} {o : PurchaseOrder} {st : Option FulfillStatus}
    {s9 : RState} (h : simulateIter mats aslm pid s = some (o, st, s9)) :
    (∃ mat ∈ mats, mat.idx = o.material) ∧
    (∃ valid, aslm.lookup o.material = some valid ∧ o.supplier ∈ valid) ∧
    1 ≤ o.qtyOrdered ∧
    (∃ lead, 14 ≤ lead ∧ lead ≤ 90 ∧ o.dueDate = o.orderDate + lead) ∧
    (current_date < o.dueDate → o.qtyReceived = 0 ∧ o.receipt = none ∧ st = none) ∧
    (o.dueDate ≤ current_date →
      ∃ st0, st = some st0 ∧ o.qtyReceived ≤ o.qtyOrdered ∧
        (st0 = FulfillStatus.Full → o.qtyReceived = o.qtyOrdered) ∧
        (st0 = FulfillStatus.Part → o.qtyReceived < o.qtyOrdered) ∧
        (st0 = FulfillStatus.Missing → o.qtyReceived = 0) ∧
        ((o.receipt ≠ none) ↔ st0 ≠ FulfillStatus.Missing)) := by
  simp only [simulateIter, bind, Option.bind_eq_some] at h
  obtain ⟨⟨mat, s1⟩, hmat, h⟩ := h
  obtain ⟨valid, hvalid, h⟩ := h
  obtain ⟨⟨sup, s2⟩, hsup, h⟩ := h
  obtain ⟨⟨rec1, rcpt, st2, s7⟩, hful, h⟩ := h
  simp only [pure, Option.some.injEq, Prod.mk.injEq] at h
  obtain ⟨ho, hst, -⟩ := h
  subst ho
  subst hst
  obtain ⟨hopen, hres⟩ := fulfillDraw_spec hful (qtyDraw_ge_one _ _)
  refine ⟨⟨mat, rchoice_mem hmat, rfl⟩, ⟨valid, hvalid, rchoice_mem hsup⟩,
    qtyDraw_ge_one _ _, ⟨(randint 14 90 (randint date_2024_01_01 date_2025_12_31 s2).2).1,
      (randint_le (by decide) _).1, (randint_le (by decide) _).2, rfl⟩,
    hopen, hres⟩

theorem simulateOrders_mem {mats : List Material} {aslm : List (ℕ × List ℕ)} :
    ∀ {n pid : ℕ} {s : RState} {l : List (PurchaseOrder × Option FulfillStatus)}
      {s1 : RState},
      simulateOrders mats aslm n pid s = some (l, s1) →
      ∀ ost ∈ l, ∃ pid0 s0 s9,
        simulateIter mats aslm pid0 s0 = some (ost.1, ost.2, s9)
  | 0, pid, s, l, s1, h => by
    simp only [simulateOrders, Option.some.injEq, Prod.mk.injEq] at h
    simp [← h.1]
  | n + 1, pid, s, l, s1, h => by
    simp only [simulateOrders, bind, Option.bind_eq_some] at h
    obtain ⟨⟨o, st, sa⟩, h1, h2⟩ := h
    obtain ⟨⟨rest, sb⟩, h3, h4⟩ := h2
    simp only [pure, Option.some.injEq, Prod.mk.injEq] at h4
    obtain ⟨hl, -⟩ := h4
    subst hl
    intro ost host
    rcases List.mem_cons.mp host with rfl | host
    · exact ⟨pid, s, sa, h1⟩
    · exact simulateOrders_mem h3 ost host

/-- Stage-by-stage inversion of a successful pipeline run. -/
theorem pipeline_inv {cfg : GenConfig} {s : RState} {out : GenOutput}
    (h : pipeline cfg s = some out) :
    ∃ s1 s2 s3 s4 s5,
      genSuppliers cfg.numSuppliers cfg.countryWeights s = some (out.suppliers, s1) ∧
      genMaterials cfg.numMaterials cfg.tierDist s1 = some (out.materials, s2) ∧
      buildBOM out.materials s2 = some (out.bom, s3) ∧
      genASL out.materials out.suppliers s3 = some (out.asl, s4) ∧
      simulateOrders out.materials out.asl cfg.targetPoCount 100000 s4 =
        some (out.orders, s5) := by
  unfold pipeline at h
  split at h
  · exact Option.noConfusion h
  · next sups s1 hgs =>
    split at h
    · exact Option.noConfusion h
    · next mats s2 hgm =>
      split at h
      · exact Option.noConfusion h
      · next edges s3 hbb =>
        split at h
        · exact Option.noConfusion h
        · next aslm s4 hasl =>
          split at h
          · exact Option.noConfusion h
          · next ords s5 hsim =>
            simp only [Option.some.injEq] at h
            subst h
            exact ⟨s1, s2, s3, s4, s5, hgs, hgm, hbb, hasl, hsim⟩

/-! ## Concrete fixtures for witnesses and counterexamples -/

def matW : Material :=
  { idx := 1, tier := 0, descr := "EV_Sedan", baseUnit := "EA", cost := 1 }

def mat3W : Material :=
  { idx := 1, tier := 3, descr := "Cell_Pouch", baseUnit := "EA", cost := 1 }

def mat4W : Material :=
  { idx := 2, tier := 4, descr := "Copper_Foil", baseUnit := "KG", cost := 1 }

def aslW : List (ℕ × List ℕ) := [(1, [7])]

def s0W : RState := ⟨tapeOf [], 0⟩

def cfgW : GenConfig :=
  { numSuppliers := 1, numMaterials := 1, targetPoCount := 1,
    tierDist := TIER_DISTRIBUTION, countryWeights := COUNTRY_WEIGHTS }

def cfgBadTier : GenConfig :=
  { numSuppliers := 2, numMaterials := 1, targetPoCount := 0,
    tierDist := [500, 500], countryWeights := COUNTRY_WEIGHTS }

/-! ## The claims -/

/-- C1, counterexample: with order quantity 1 and a Partial draw, integer
truncation (`int(1 * uniform(0.1, 0.9))`) yields quantity received = 0 even
though the category is Partial and the receipt date is set — refuting
"Partial implies 0 < received" (and with it "received = 0 only for
Missing"). -/
theorem c1_partial_zero_counterexample :
    (simulateIter [matW] aslW 100000
        ⟨tapeOf [0, 0, 0, 0, 500, 0, 900, 0, 0, 0], 0⟩).map
        (fun r => (r.2.1, r.1.qtyReceived, r.1.receipt.isSome, r.1.qtyOrdered)) =
      some (some FulfillStatus.Part, 0, true, 1) := by decide

/-- C1, amended: every simulated purchase order has due date = order date +
lead time with lead ∈ [14, 90]; if the due date is after the horizon the
order is open (received 0, no receipt, no category drawn); otherwise
received ≤ ordered and the drawn category matches the quantities — Full ⇒
received = ordered, Partial ⇒ received < ordered (possibly 0 by integer
truncation), Missing ⇒ received = 0 — and the receipt date is present
exactly when the category is not Missing. -/
theorem c1_fulfillment_consistency {mats : List Material}
    {aslm : List (ℕ × List ℕ)} {n pid : ℕ} {s : RState}
    {l : List (PurchaseOrder × Option FulfillStatus)} {s1 : RState}
    (h : simulateOrders mats aslm n pid s = some (l, s1)) :
    ∀ ost ∈ l,
      (∃ lead, 14 ≤ lead ∧ lead ≤ 90 ∧ ost.1.dueDate = ost.1.orderDate + lead) ∧
      (current_date < ost.1.dueDate →
        ost.1.qtyReceived = 0 ∧ ost.1.receipt = none ∧ ost.2 = none) ∧
      (ost.1.dueDate ≤ current_date →
        ∃ st0, ost.2 = some st0 ∧ ost.1.qtyReceived ≤ ost.1.qtyOrdered ∧
          (st0 = FulfillStatus.Full → ost.1.qtyReceived = ost.1.qtyOrdered) ∧
          (st0 = FulfillStatus.Part → ost.1.qtyReceived < ost.1.qtyOrdered) ∧
          (st0 = FulfillStatus.Missing → ost.1.qtyReceived = 0) ∧
          ((ost.1.receipt ≠ none) ↔ st0 ≠ FulfillStatus.Missing)) := by
  intro ost host
  obtain ⟨pid0, s0, s9, hit⟩ := simulateOrders_mem h ost host
  obtain ⟨-, -, -, hlead, hopen, hres⟩ := simulateIter_spec hit
  exact ⟨hlead, hopen, hres⟩

/-- C1, witness: the amended theorem applied to a concrete one-order run. -/
theorem c1_fulfillment_witness :
    ∃ l s1, simulateOrders [matW] aslW 1 100000
        ⟨tapeOf [0, 0, 0, 0, 500, 0, 900, 0, 0, 0], 0⟩ = some (l, s1) ∧
      ∀ ost ∈ l, ∃ lead, 14 ≤ lead ∧ lead ≤ 90 ∧
        ost.1.dueDate = ost.1.orderDate + lead := by
  have hs : (simulateOrders [matW] aslW 1 100000
      ⟨tapeOf [0, 0, 0, 0, 500, 0, 900, 0, 0, 0], 0⟩).isSome := by decide
  obtain ⟨⟨l, s1⟩, h⟩ := Option.isSome_iff_exists.mp hs
  exact ⟨l, s1, h, fun ost host => (c1_fulfillment_consistency h ost host).1⟩

/-- C2: the tier-3 → tier-4 child draw in the code is
`np.random.choice(pool, size=k, replace=False)` with no probability weights:
whenever it succeeds it returns `k` pairwise-distinct children from the FULL
tier-4 pool — the same distinct-draw policy as the other tiers — and every
pool element is reachable.  There is no replacement-style weighting and no
smaller effective subset, contradicting the claimed nexus sampling bias that
the script's own comments assert. -/
theorem c2_tier3_sampler_uniform_norep (pool : List Material) (k : ℕ) :
    (∀ (s : RState) (cs : List Material) (s2 : RState), pool.Nodup →
      npSampleNoRep pool k s = some (cs, s2) →
      cs.Nodup ∧ (∀ x ∈ cs, x ∈ pool) ∧ cs.length = k) ∧
    (∀ y ∈ pool, 1 ≤ k → k ≤ pool.length →
      ∃ s cs s2, npSampleNoRep pool k s = some (cs, s2) ∧ y ∈ cs) := by
  constructor
  · intro s cs s2 hnd h
    unfold npSampleNoRep at h
    split at h
    · next hk =>
      simp only [Option.some.injEq] at h
      have h1 : (pickDistinct k pool s).1 = cs := congrArg Prod.fst h
      refine ⟨h1 ▸ pickDistinct_nodup k pool hnd s, ?_, ?_⟩
      · intro x hx
        exact pickDistinct_subset k pool s x (by rw [h1]; exact hx)
      · rw [← h1, pickDistinct_length]
        omega
    · exact Option.noConfusion h
  · intro y hy hk hkle
    obtain ⟨s, hs⟩ := pickDistinct_reach pool k hk y hy
    refine ⟨s, (pickDistinct k pool s).1, (pickDistinct k pool s).2, ?_, hs⟩
    unfold npSampleNoRep
    rw [if_pos hkle]

/-- C2, witness: at a concrete two-element tier-4 pool with fan-out 2, the
tier-3 sampler yields both pool elements, distinct. -/
theorem c2_tier3_witness :
    ∃ s cs s2, npSampleNoRep [mat3W, mat4W] 2 s = some (cs, s2) ∧ mat4W ∈ cs ∧
      cs.Nodup ∧ cs.length = 2 := by
  obtain ⟨s, cs, s2, h, hy⟩ :=
    (c2_tier3_sampler_uniform_norep [mat3W, mat4W] 2).2 mat4W (by decide)
      (by decide) (by decide)
  obtain ⟨hnd, -, hlen⟩ :=
    (c2_tier3_sampler_uniform_norep [mat3W, mat4W] 2).1 s cs s2 (by decide) h
  exact ⟨s, cs, s2, h, hy, hnd, hlen⟩

/-- C3, counterexample: with target count 0, `np.random.zipf(size=0)` yields
an empty array and `dominance_scores.max()` raises on it, so the supplier
generator fails instead of yielding an empty supplier set. -/
theorem c3_zero_suppliers_counterexample :
    genSuppliers 0 COUNTRY_WEIGHTS s0W = none := rfl

/-- C3, amended: for every target count N ≥ 1 and positive-total
country-weight table the supplier generator succeeds with exactly N records;
at N = 0 it fails in score normalisation (max of an empty array) rather than
yielding an empty set. -/
theorem c3_supplier_count_pos (n : ℕ) (cw : List (String × ℤ)) (s : RState)
    (hn : 1 ≤ n) (hw : 0 < (cw.map Prod.snd).sum) :
    ∃ sups s1, genSuppliers n cw s = some (sups, s1) ∧ sups.length = n := by
  obtain ⟨⟨sups, s1⟩, h⟩ := Option.isSome_iff_exists.mp (genSuppliers_isSome n s hn hw)
  exact ⟨sups, s1, h, genSuppliers_length h⟩

/-- C3, witness: one supplier from the script's country-weight table. -/
theorem c3_supplier_witness :
    ∃ sups s1, genSuppliers 1 COUNTRY_WEIGHTS s0W = some (sups, s1) ∧
      sups.length = 1 :=
  c3_supplier_count_pos 1 COUNTRY_WEIGHTS s0W (by decide) (by decide)

/-- C4, counterexample: a concrete run where the drawn tier-3 fan-out (2)
exceeds the tier-4 pool size (1): the whole BOM build fails instead of
clamping the request, refuting the claim for the tier 3→4 transition. -/
theorem c4_tier3_overflow_counterexample :
    (buildBOM [mat3W, mat4W] ⟨tapeOf [2], 0⟩).isNone = true ∧
    (poissonFanout ⟨tapeOf [2], 0⟩).1 = 2 ∧
    (matsOfTier [mat3W, mat4W] 4).length = 1 := by decide

/-- C4, amended: at the transitions from tiers 0-2 the requested fan-out is
clamped to the pool size (`random.sample` with `k=min(len(pool), num)`) and
selection always succeeds; at the tier 3→4 transition
(`np.random.choice(..., replace=False)`) a drawn count exceeding the pool
size makes the draw — and with it the run — fail instead of clamping. -/
theorem c4_clamping_amended (tier : ℕ) (pool : List Material) (num : ℕ)
    (s : RState) :
    (tier ≠ 3 → ∃ cs s2, selectChildren tier pool num s = some (cs, s2) ∧
      cs.length = min pool.length num) ∧
    (tier = 3 → pool.length < num → selectChildren tier pool num s = none) := by
  constructor
  · intro h3
    refine ⟨(rsample pool (min pool.length num) s).1,
      (rsample pool (min pool.length num) s).2, ?_, ?_⟩
    · unfold selectChildren
      rw [if_neg h3]
    · unfold rsample
      rw [pickDistinct_length]
      omega
  · intro h3 hlt
    unfold selectChildren npSampleNoRep
    rw [if_pos h3, if_neg (by omega)]

/-- C4, witness: the amended theorem at a concrete pool — clamped success at
tier 0, failure at tier 3. -/
theorem c4_clamping_witness :
    (∃ cs s2, selectChildren 0 [mat4W] 5 s0W = some (cs, s2) ∧
      cs.length = min [mat4W].length 5) ∧
    selectChildren 3 [mat4W] 2 s0W = none := by
  refine ⟨(c4_clamping_amended 0 [mat4W] 5 s0W).1 (by decide), ?_⟩
  exact (c4_clamping_amended 3 [mat4W] 2 s0W).2 rfl (by decide)

/-- C5, counterexample: with an invalid tier vector (length 2) the supplier
stage still runs to completion — two supplier records are produced — before
the material stage's first draw detects the bad vector and the pipeline
fails; configuration is not checked before entity generation begins. -/
theorem c5_partial_output_counterexample :
    (genSuppliers cfgBadTier.numSuppliers cfgBadTier.countryWeights s0W).map
        (fun r => r.1.length) = some 2 ∧
    (pipeline cfgBadTier s0W).isNone = true := by decide

/-- C5, amended: an invalid tier-probability vector is detected only at the
first material tier draw: the supplier stage has already produced its full
record set by then (partial in-memory output), the material stage fails, and
the pipeline produces no final output. -/
theorem c5_late_detection_amended (cfg : GenConfig) (s : RState)
    (hbad : ¬(cfg.tierDist.length = 5 ∧ (∀ x ∈ cfg.tierDist, 0 ≤ x) ∧
      cfg.tierDist.sum = 1000))
    (hn : 1 ≤ cfg.numSuppliers) (hm : 1 ≤ cfg.numMaterials)
    (hw : 0 < (cfg.countryWeights.map Prod.snd).sum) :
    ∃ sups s1,
      genSuppliers cfg.numSuppliers cfg.countryWeights s = some (sups, s1) ∧
      sups.length = cfg.numSuppliers ∧
      genMaterials cfg.numMaterials cfg.tierDist s1 = none ∧
      pipeline cfg s = none := by
  obtain ⟨⟨sups, s1⟩, h⟩ := Option.isSome_iff_exists.mp
    (genSuppliers_isSome cfg.numSuppliers s hn hw)
  have hgm : genMaterials cfg.numMaterials cfg.tierDist s1 = none :=
    matLoop_invalid hbad 0 cfg.numMaterials hm s1
  refine ⟨sups, s1, h, genSuppliers_length h, hgm, ?_⟩
  simp only [pipeline, h, hgm]

/-- C5, witness: the amended theorem at the concrete bad configuration. -/
theorem c5_late_detection_witness :
    ∃ sups s1,
      genSuppliers cfgBadTier.numSuppliers cfgBadTier.countryWeights s0W
        = some (sups, s1) ∧
      sups.length = cfgBadTier.numSuppliers ∧
      genMaterials cfgBadTier.numMaterials cfgBadTier.tierDist s1 = none ∧
      pipeline cfgBadTier s0W = none :=
  c5_late_detection_amended cfgBadTier s0W (by decide) (by decide) (by decide)
    (by decide)

/-- C6: every edge a successful BOM build produces connects a parent to a
child exactly one tier deeper (hence no skip-level edges and no self-loops),
and a tier transition whose child pool is empty is skipped: it contributes no
edges, consumes no randomness and does not fail the run. -/
theorem c6_bom_tier_invariant :
    (∀ (mats : List Material) (s : RState) (es : List BomEdge) (s1 : RState),
      buildBOM mats s = some (es, s1) →
      ∀ e ∈ es, e.child.tier = e.parent.tier + 1 ∧ e.parent ≠ e.child) ∧
    (∀ (mats : List Material) (tier : ℕ) (s : RState),
      matsOfTier mats (tier + 1) = [] → transEdges mats tier s = some ([], s)) :=
  ⟨fun _ _ _ _ h => buildBOM_edges h, fun _ _ s h => transEdges_empty_pool s h⟩

/-- C6, witness: a concrete build with one tier-3 parent and one tier-4
child, and a concrete skipped transition with an empty child pool. -/
theorem c6_bom_witness :
    ∃ es s1, buildBOM [mat3W, mat4W] ⟨tapeOf [1, 0, 0, 0], 0⟩ = some (es, s1) ∧
      (∀ e ∈ es, e.child.tier = e.parent.tier + 1 ∧ e.parent ≠ e.child) ∧
      transEdges [matW] 0 s0W = some ([], s0W) := by
  have hs : (buildBOM [mat3W, mat4W] ⟨tapeOf [1, 0, 0, 0], 0⟩).isSome := by decide
  obtain ⟨⟨es, s1⟩, h⟩ := Option.isSome_iff_exists.mp hs
  exact ⟨es, s1, h, c6_bom_tier_invariant.1 _ _ _ _ h,
    c6_bom_tier_invariant.2 [matW] 0 s0W (by decide)⟩

/-- C7: in every successful pipeline run, each purchase order's supplier is a
member of the ASL candidate list of the order's material, and that list —
built by the ASL assigner before the simulation — has between 1 and 3
candidates, hence is never empty. -/
theorem c7_orders_respect_asl {cfg : GenConfig} {s : RState} {out : GenOutput}
    (h : pipeline cfg s = some out) :
    ∀ ost ∈ out.orders, ∃ cands,
      out.asl.lookup ost.1.material = some cands ∧ ost.1.supplier ∈ cands ∧
      1 ≤ cands.length ∧ cands.length ≤ 3 := by
  obtain ⟨s1, s2, s3, s4, s5, hgs, hgm, hbb, hasl, hsim⟩ := pipeline_inv h
  intro ost host
  obtain ⟨pid0, t0, t9, hit⟩ := simulateOrders_mem hsim ost host
  obtain ⟨-, ⟨cands, hlook, hmem⟩, -, -, -, -⟩ := simulateIter_spec hit
  have hkv := genASL_entries hasl (ost.1.material, cands) (lookup_mem hlook)
  exact ⟨cands, hlook, hmem, hkv.1, hkv.2.1⟩

/-- C7, witness: the sourcing constraint on a concrete pipeline run. -/
theorem c7_asl_witness :
    ∃ out, pipeline cfgW s0W = some out ∧
      ∀ ost ∈ out.orders, ∃ cands,
        out.asl.lookup ost.1.material = some cands ∧ ost.1.supplier ∈ cands ∧
        1 ≤ cands.length ∧ cands.length ≤ 3 := by
  have hs : (pipeline cfgW s0W).isSome := by decide
  obtain ⟨out, h⟩ := Option.isSome_iff_exists.mp hs
  exact ⟨out, h, c7_orders_respect_asl h⟩

/-- C8: a successful pipeline run produces exactly the configured number of
purchase-order records (the while-loop runs exactly target-count iterations,
each appending one record), and exactly the configured supplier and material
counts. -/
theorem c8_exact_counts {cfg : GenConfig} {s : RState} {out : GenOutput}
    (h : pipeline cfg s = some out) :
    out.orders.length = cfg.targetPoCount ∧
    out.suppliers.length = cfg.numSuppliers ∧
    out.materials.length = cfg.numMaterials := by
  obtain ⟨s1, s2, s3, s4, s5, hgs, hgm, hbb, hasl, hsim⟩ := pipeline_inv h
  exact ⟨simulateOrders_length hsim, genSuppliers_length hgs, matLoop_length hgm⟩

/-- C8, witness: the exact-count theorem on a concrete run. -/
theorem c8_counts_witness :
    ∃ out, pipeline cfgW s0W = some out ∧
      out.orders.length = cfgW.targetPoCount ∧
      out.suppliers.length = cfgW.numSuppliers ∧
      out.materials.length = cfgW.numMaterials := by
  have hs : (pipeline cfgW s0W).isSome := by decide
  obtain ⟨out, h⟩ := Option.isSome_iff_exists.mp hs
  exact ⟨out, h, c8_exact_counts h⟩

/-- C9: generation is a deterministic function of the seed and the
configuration: the whole random stream is derived from the single seed, so
two runs with identical seed and identical configuration produce identical
supplier, material, BOM-edge and purchase-order record sets. -/
theorem c9_seed_determinism (seed1 seed2 : ℕ) (cfg1 cfg2 : GenConfig)
    (hs : seed1 = seed2) (hc : cfg1 = cfg2) :
    (runPipeline seed1 cfg1).map GenOutput.suppliers =
      (runPipeline seed2 cfg2).map GenOutput.suppliers ∧
    (runPipeline seed1 cfg1).map GenOutput.materials =
      (runPipeline seed2 cfg2).map GenOutput.materials ∧
    (runPipeline seed1 cfg1).map GenOutput.bom =
      (runPipeline seed2 cfg2).map GenOutput.bom ∧
    (runPipeline seed1 cfg1).map (fun o => o.orders.map Prod.fst) =
      (runPipeline seed2 cfg2).map (fun o => o.orders.map Prod.fst) := by
  subst hs
  subst hc
  exact ⟨rfl, rfl, rfl, rfl⟩

/-- C9, witness: the determinism theorem at the script's seed 42 and a
concrete configuration. -/
theorem c9_determinism_witness :
    (runPipeline 42 cfgW).map GenOutput.suppliers =
      (runPipeline 42 cfgW).map GenOutput.suppliers ∧
    (runPipeline 42 cfgW).map GenOutput.materials =
      (runPipeline 42 cfgW).map GenOutput.materials ∧
    (runPipeline 42 cfgW).map GenOutput.bom =
      (runPipeline 42 cfgW).map GenOutput.bom ∧
    (runPipeline 42 cfgW).map (fun o => o.orders.map Prod.fst) =
      (runPipeline 42 cfgW).map (fun o => o.orders.map Prod.fst) :=
  c9_seed_determinism 42 42 cfgW cfgW rfl rfl

/-- C10: the order-date window ends at 2025-12-31, after the horizon cutoff
2025-10-31, and a concrete draw realises an order dated past the horizon;
every order dated strictly after the horizon is necessarily open — its due
date (order date plus a positive lead time) is also past the horizon, so
quantity received is 0 and the receipt date is null, with no fulfillment
category drawn. -/
theorem c10_late_orders_open :
    ((simulateIter [matW] aslW 100000
        ⟨tapeOf [0, 0, 730, 0, 500, 0, 0], 0⟩).map
        (fun r => (r.1.orderDate, r.1.qtyReceived, r.1.receipt, r.2.1)) =
      some (date_2025_12_31, 0, none, none) ∧
      current_date < date_2025_12_31) ∧
    (∀ (mats : List Material) (aslm : List (ℕ × List ℕ)) (pid : ℕ) (s : RState)
      (o : PurchaseOrder) (st : Option FulfillStatus) (s9 : RState),
      simulateIter mats aslm pid s = some (o, st, s9) →
      current_date < o.orderDate →
      o.qtyReceived = 0 ∧ o.receipt = none ∧ st = none ∧
        current_date < o.dueDate) := by
  constructor
  · exact ⟨by decide, by decide⟩
  · intro mats aslm pid s o st s9 h hord
    obtain ⟨-, -, -, ⟨lead, hl1, hl2, hdue⟩, hopen, -⟩ := simulateIter_spec h
    have hd : current_date < o.dueDate := by omega
    obtain ⟨h1, h2, h3⟩ := hopen hd
    exact ⟨h1, h2, h3, hd⟩

/-- C10, witness: the open-order consequence extracted at the concrete
late-dated draw. -/
theorem c10_open_witness :
    ∃ o st s9, simulateIter [matW] aslW 100000
        ⟨tapeOf [0, 0, 730, 0, 500, 0, 0], 0⟩ = some (o, st, s9) ∧
      current_date < o.orderDate ∧ o.qtyReceived = 0 ∧ o.receipt = none ∧
      st = none ∧ current_date < o.dueDate := by
  have hs : (simulateIter [matW] aslW 100000
      ⟨tapeOf [0, 0, 730, 0, 500, 0, 0], 0⟩).isSome := by decide
  obtain ⟨⟨o, st, s9⟩, h⟩ := Option.isSome_iff_exists.mp hs
  have hm := c10_late_orders_open.1.1
  rw [h] at hm
  simp only [Option.map_some', Option.some.injEq, Prod.mk.injEq] at hm
  obtain ⟨hod, -, -, -⟩ := hm
  have hord : current_date < o.orderDate := by
    rw [hod]
    exact c10_late_orders_open.1.2
  obtain ⟨h1, h2, h3, h4⟩ := c10_late_orders_open.2 _ _ _ _ _ _ _ h hord
  exact ⟨o, st, s9, h, hord, h1, h2, h3, h4⟩
